import Mathlib

/-!
Verification of the pico-ident firmware persistence core.

The definitions below are a shallow embedding of the C++ sources:
  * `src/AT24CM02.cpp` / `src/AT24CM02.h` — the EEPROM transport,
  * `src/DeviceInfo.h` — the identity record,
  * `src/main.cpp` — wear-leveled pulse counter and serial command handler.

Machine integers are modelled as `Nat` with explicit `% 256` (resp. the
18-bit bound) where the C code relies on wraparound or masking.  Byte
buffers are `List Nat`.  The I2C transport is modelled as error-free
memory; fallible operations return `Option`.
-/

namespace PicoIdent

/-! ## Byte-addressable store (AT24CM02 driver, `AT24CM02.cpp`) -/

/-- Total number of pages in flash (`AT24CM02::kPages`). -/
def kPages : Nat := 1024

/-- Number of bytes per page (`AT24CM02::kBytesPerPage`). -/
def kBytesPerPage : Nat := 256

/-- 18-bit address mask bound: addresses must satisfy `addr < 2^18`
(the source checks `addr & ~kAddrMask` where `kAddrMask = (1 << 18) - 1`). -/
def kAddrSpace : Nat := 2 ^ 18

/-- EEPROM memory contents: a byte (here an unbounded `Nat`; the transport
never alters values) at every address. -/
def Mem : Type := Nat → Nat

/-- Write the bytes `bs` to consecutive addresses starting at `a`.
This models the effect of one continuous I2C data transfer on memory. -/
def writeSeq : Mem → Nat → List Nat → Mem
  | m, _, [] => m
  | m, a, b :: bs => writeSeq (fun i => if i = a then b else m i) (a + 1) bs

/-- The chunking loop of `AT24CM02::Write` (the `while (len > 0)` loop):
given the current address, the remaining buffer and the current
`page_remain`, produce the list of `(address, data)` chunk transfers the
driver issues.  `fuel` is an upper bound on the number of iterations
(each real iteration consumes at least one buffer byte, so `buf.length`
suffices); it only makes the recursion structural. -/
def chunkLoop : Nat → Nat → List Nat → Nat → List (Nat × List Nat)
  | 0, _, _, _ => []
  | fuel + 1, a, buf, pr =>
    if buf.isEmpty then []
    else
      (a, buf.take pr) ::
        chunkLoop fuel (a + pr) (buf.drop pr) (min (buf.length - pr) kBytesPerPage)

/-- The chunk transfers issued by `AT24CM02::Write addr buf`: the initial
`page_remain` is `kBytesPerPage - (addr % kBytesPerPage)`, clamped to
`len` when `len < page_remain`. -/
def writeChunks (addr : Nat) (buf : List Nat) : List (Nat × List Nat) :=
  chunkLoop buf.length addr buf (min buf.length (kBytesPerPage - addr % kBytesPerPage))

/-- Apply a list of chunk transfers to memory in order. -/
def applyChunks (m : Mem) : List (Nat × List Nat) → Mem
  | [] => m
  | (a, bs) :: rest => applyChunks (writeSeq m a bs) rest

/-- `AT24CM02::Write` (transport errors not modelled: every I2C transfer
succeeds).  Returns `none` exactly when the source returns `false` in its
precondition checks: empty buffer, address outside 18 bits, or
`addr + len >= kPages * kBytesPerPage`. -/
def AT24CM02.Write (m : Mem) (addr : Nat) (buf : List Nat) : Option Mem :=
  if buf.length = 0 ∨ kAddrSpace ≤ addr then none
  else if kPages * kBytesPerPage ≤ addr + buf.length then none
  else some (applyChunks m (writeChunks addr buf))

/-- `AT24CM02::Read`: same precondition checks as `Write`, then one
transfer reading `len` consecutive bytes. -/
def AT24CM02.Read (m : Mem) (addr : Nat) (len : Nat) : Option (List Nat) :=
  if len = 0 ∨ kAddrSpace ≤ addr then none
  else if kPages * kBytesPerPage ≤ addr + len then none
  else some ((List.range len).map fun i => m (addr + i))

/-! ### Lemmas about `writeSeq` -/

theorem writeSeq_of_lt (m : Mem) (a : Nat) (bs : List Nat) (i : Nat) (h : i < a) :
    writeSeq m a bs i = m i := by
  induction bs generalizing m a with
  | nil => rfl
  | cons b bs ih =>
    simp only [writeSeq]
    rw [ih _ (a + 1) (by omega)]
    simp [Nat.ne_of_lt h]

theorem writeSeq_of_ge (m : Mem) (a : Nat) (bs : List Nat) (i : Nat)
    (h : a + bs.length ≤ i) : writeSeq m a bs i = m i := by
  induction bs generalizing m a with
  | nil => rfl
  | cons b bs ih =>
    simp only [writeSeq, List.length_cons] at *
    rw [ih _ (a + 1) (by omega)]
    have : i ≠ a := by omega
    simp [this]

theorem writeSeq_get (m : Mem) (a : Nat) (bs : List Nat) (k : Nat)
    (h : k < bs.length) : writeSeq m a bs (a + k) = bs.getD k 0 := by
  induction bs generalizing m a k with
  | nil => simp at h
  | cons b bs ih =>
    cases k with
    | zero =>
      simp only [writeSeq, List.getD_cons_zero, Nat.add_zero]
      rw [writeSeq_of_lt _ (a + 1) _ a (by omega)]
      simp
    | succ k =>
      simp only [writeSeq, List.getD_cons_succ]
      have : a + (k + 1) = (a + 1) + k := by omega
      rw [this, ih _ (a + 1) k (by simpa using h)]

theorem writeSeq_append (m : Mem) (a : Nat) (xs ys : List Nat) :
    writeSeq m a (xs ++ ys) = writeSeq (writeSeq m a xs) (a + xs.length) ys := by
  induction xs generalizing m a with
  | nil => simp [writeSeq]
  | cons x xs ih =>
    simp only [List.cons_append, writeSeq, List.length_cons, List.append_eq]
    have h' : a + (xs.length + 1) = (a + 1) + xs.length := by omega
    rw [ih, h']

/-! ### Lemmas about the chunking loop -/

theorem chunkLoop_nil (fuel a pr : Nat) : chunkLoop fuel a [] pr = [] := by
  cases fuel <;> simp [chunkLoop]

theorem chunk_rec_len (buf : List Nat) (pr fuel : Nat) (hf : buf.length ≤ fuel + 1)
    (hp1 : 1 ≤ pr) : (buf.drop pr).length ≤ fuel := by
  simp only [List.length_drop]
  omega

theorem chunk_rec_le (buf : List Nat) (pr : Nat) :
    min (buf.length - pr) kBytesPerPage ≤ (buf.drop pr).length := by
  simp only [List.length_drop]
  exact Nat.min_le_left _ _

theorem chunk_rec_pos (buf : List Nat) (pr : Nat) (hne : buf.drop pr ≠ []) :
    1 ≤ min (buf.length - pr) kBytesPerPage := by
  have hlen2 : 0 < (buf.drop pr).length := List.length_pos.mpr hne
  simp only [List.length_drop] at hlen2
  simp only [kBytesPerPage]
  omega

theorem chunkLoop_join (fuel : Nat) :
    ∀ (a : Nat) (buf : List Nat) (pr : Nat), buf.length ≤ fuel →
      pr ≤ buf.length → (buf ≠ [] → 1 ≤ pr) →
      ((chunkLoop fuel a buf pr).map Prod.snd).flatten = buf := by
  induction fuel with
  | zero =>
    intro a buf pr hf _ _
    have : buf = [] := List.length_eq_zero.mp (Nat.le_zero.mp hf)
    subst this
    simp [chunkLoop]
  | succ fuel ih =>
    intro a buf pr hf hpr h1
    by_cases hb : buf = []
    · subst hb; simp [chunkLoop]
    · have hp1 : 1 ≤ pr := h1 hb
      simp only [chunkLoop, List.isEmpty_eq_true, hb, if_false, List.map_cons,
        List.flatten_cons]
      rw [ih (a + pr) (buf.drop pr) _ (chunk_rec_len buf pr fuel hf hp1)
        (chunk_rec_le buf pr) (chunk_rec_pos buf pr)]
      exact List.take_append_drop pr buf

theorem chunkLoop_apply (fuel : Nat) :
    ∀ (m : Mem) (a : Nat) (buf : List Nat) (pr : Nat), buf.length ≤ fuel →
      pr ≤ buf.length → (buf ≠ [] → 1 ≤ pr) →
      applyChunks m (chunkLoop fuel a buf pr) = writeSeq m a buf := by
  induction fuel with
  | zero =>
    intro m a buf pr hf _ _
    have : buf = [] := List.length_eq_zero.mp (Nat.le_zero.mp hf)
    subst this
    simp [chunkLoop, applyChunks, writeSeq]
  | succ fuel ih =>
    intro m a buf pr hf hpr h1
    by_cases hb : buf = []
    · subst hb; simp [chunkLoop, applyChunks, writeSeq]
    · have hp1 : 1 ≤ pr := h1 hb
      simp only [chunkLoop, List.isEmpty_eq_true, hb, if_false, applyChunks]
      rw [ih _ (a + pr) (buf.drop pr) _ (chunk_rec_len buf pr fuel hf hp1)
        (chunk_rec_le buf pr) (chunk_rec_pos buf pr)]
      have htk : (buf.take pr).length = pr := by
        simp only [List.length_take]
        omega
      conv_rhs => rw [← List.take_append_drop pr buf]
      rw [writeSeq_append, htk]

theorem writeSeq_readback (m : Mem) (a : Nat) (bs : List Nat) :
    (List.range bs.length).map (fun i => writeSeq m a bs (a + i)) = bs := by
  apply List.ext_getElem
  · simp
  · intro i h1 h2
    simp only [List.getElem_map, List.getElem_range]
    rw [writeSeq_get m a bs i (by simpa using h2)]
    exact List.getD_eq_getElem bs 0 (by simpa using h2)

theorem Write_eq_writeSeq (m : Mem) (addr : Nat) (buf : List Nat) (h1 : buf ≠ [])
    (h2 : addr + buf.length < kPages * kBytesPerPage) :
    AT24CM02.Write m addr buf = some (writeSeq m addr buf) := by
  have hlen : 0 < buf.length := List.length_pos.mpr h1
  have haddr : addr < kAddrSpace := by
    simp only [kPages, kBytesPerPage] at h2
    simp only [kAddrSpace]
    omega
  simp only [AT24CM02.Write, h2.not_le, haddr.not_le, Nat.pos_iff_ne_zero.mp hlen,
    or_self, if_false, false_or, if_neg, ite_false]
  rw [writeChunks, chunkLoop_apply buf.length m addr buf _ le_rfl
    (Nat.min_le_left _ _)]
  intro _
  have : addr % kBytesPerPage < kBytesPerPage := Nat.mod_lt _ (by simp [kBytesPerPage])
  simp only [kBytesPerPage] at *
  omega

/-- C1: For every 18-bit address and every non-zero length with
`address + length < capacity` (262144), `Write(address, buf)` followed by
`Read(address, len)` over the same span returns exactly the bytes written
(transport errors are not modelled: every I2C transfer succeeds); and
spans violating the precondition (empty buffer, address outside 18 bits,
or `address + length` reaching the capacity) make both `Write` and `Read`
return `none` (the model of `false`) without transferring anything. -/
theorem write_read_roundtrip (m : Mem) (addr : Nat) (buf : List Nat) :
    (buf ≠ [] → addr + buf.length < kPages * kBytesPerPage →
      ∃ m', AT24CM02.Write m addr buf = some m' ∧
        AT24CM02.Read m' addr buf.length = some buf) ∧
    (buf = [] ∨ kAddrSpace ≤ addr ∨ kPages * kBytesPerPage ≤ addr + buf.length →
      AT24CM02.Write m addr buf = none ∧ AT24CM02.Read m addr buf.length = none) := by
  constructor
  · intro h1 h2
    refine ⟨writeSeq m addr buf, Write_eq_writeSeq m addr buf h1 h2, ?_⟩
    have hlen : 0 < buf.length := List.length_pos.mpr h1
    have haddr : addr < kAddrSpace := by
      simp only [kPages, kBytesPerPage] at h2
      simp only [kAddrSpace]
      omega
    simp only [AT24CM02.Read, h2.not_le, haddr.not_le, Nat.pos_iff_ne_zero.mp hlen,
      or_self, if_false, false_or, if_neg, ite_false]
    rw [writeSeq_readback]
  · intro h
    rcases h with h | h | h
    · subst h
      simp [AT24CM02.Write, AT24CM02.Read]
    · constructor
      · simp [AT24CM02.Write, h]
      · simp [AT24CM02.Read, h]
    · have hcap : kAddrSpace = kPages * kBytesPerPage := by
        simp [kAddrSpace, kPages, kBytesPerPage]
      constructor
      · simp only [AT24CM02.Write]
        split
        · rfl
        · simp [h]
      · simp only [AT24CM02.Read]
        split
        · rfl
        · simp [h]

/-- Witness for C1: a concrete round trip crossing a page boundary
(address 510, three bytes), plus a concrete precondition violation. -/
theorem write_read_roundtrip_witness :
    (∃ m', AT24CM02.Write (fun _ => 0) 510 [1, 2, 3] = some m' ∧
      AT24CM02.Read m' 510 3 = some [1, 2, 3]) ∧
    (AT24CM02.Write (fun _ => 0) 262143 [7, 7] = none ∧
      AT24CM02.Read (fun _ => 0) 262143 2 = none) := by
  constructor
  · have h := (write_read_roundtrip (fun _ => 0) 510 [1, 2, 3]).1 (by decide)
      (by simp [kPages, kBytesPerPage])
    simpa using h
  · have h := (write_read_roundtrip (fun _ => 0) 262143 [7, 7]).2
      (by right; right; simp [kPages, kBytesPerPage])
    simpa using h

/-! ### Page-alignment structure of the chunk list (for C5) -/

/-- Well-formedness of a chunk list starting at address `a`: chunks are
contiguous (each starts where the previous ended), non-empty, never cross
a page boundary, and every chunk except the last fills its page to the
end (so all middle chunks are exactly full pages). -/
def chunksFrom : Nat → List (Nat × List Nat) → Prop
  | _, [] => True
  | a, c :: rest =>
    c.1 = a ∧ c.2 ≠ [] ∧ c.1 % kBytesPerPage + c.2.length ≤ kBytesPerPage ∧
    (rest ≠ [] → c.2.length = kBytesPerPage - c.1 % kBytesPerPage) ∧
    chunksFrom (c.1 + c.2.length) rest

theorem chunkLoop_good (fuel : Nat) :
    ∀ (a : Nat) (buf : List Nat) (pr : Nat), buf.length ≤ fuel →
      pr ≤ buf.length → (buf ≠ [] → 1 ≤ pr) →
      pr ≤ kBytesPerPage - a % kBytesPerPage →
      (pr < buf.length → pr = kBytesPerPage - a % kBytesPerPage) →
      chunksFrom a (chunkLoop fuel a buf pr) := by
  induction fuel with
  | zero =>
    intro a buf pr hf _ _ _ _
    have : buf = [] := List.length_eq_zero.mp (Nat.le_zero.mp hf)
    subst this
    simp [chunkLoop, chunksFrom]
  | succ fuel ih =>
    intro a buf pr hf hpr h1 h4 h5
    by_cases hb : buf = []
    · subst hb; simp [chunkLoop, chunksFrom]
    · have hp1 : 1 ≤ pr := h1 hb
      have hmod : a % kBytesPerPage < kBytesPerPage :=
        Nat.mod_lt _ (by simp [kBytesPerPage])
      have htk : (buf.take pr).length = pr := by
        simp only [List.length_take]
        omega
      simp only [chunkLoop, List.isEmpty_eq_true, hb, if_false, chunksFrom, htk]
      refine ⟨by trivial, ?_, by omega, ?_, ?_⟩
      · exact List.length_pos.mp (by omega)
      · intro hrest
        by_cases hd : buf.drop pr = []
        · rw [hd, chunkLoop_nil] at hrest
          exact absurd rfl hrest
        · have : pr < buf.length := by
            have := List.length_pos.mpr hd
            simp only [List.length_drop] at this
            omega
          exact h5 this
      · by_cases hd : buf.drop pr = []
        · rw [hd, chunkLoop_nil]
          simp [chunksFrom]
        · have hplen : pr < buf.length := by
            have := List.length_pos.mpr hd
            simp only [List.length_drop] at this
            omega
          have hfill : pr = kBytesPerPage - a % kBytesPerPage := h5 hplen
          apply ih (a + pr) (buf.drop pr) _ (chunk_rec_len buf pr fuel hf hp1)
            (chunk_rec_le buf pr) (chunk_rec_pos buf pr)
          · simp only [kBytesPerPage] at *
            omega
          · intro hlt
            simp only [List.length_drop] at hlt
            simp only [kBytesPerPage] at *
            omega

/-- C5: `AT24CM02::Write` splits every transfer into page-aligned chunks:
the first chunk is sized to fill the remainder of the starting page
(clamped to the buffer length), every chunk except the last fills its
page to the end (so middle chunks are full 256-byte pages and the final
chunk may be partial), no chunk crosses a page boundary, the chunks are
contiguous, and their concatenation equals the original buffer — for
every starting offset within a page. -/
theorem write_chunking_spec (addr : Nat) (buf : List Nat) (hb : buf ≠ []) :
    ((writeChunks addr buf).map Prod.snd).flatten = buf ∧
    chunksFrom addr (writeChunks addr buf) ∧
    (writeChunks addr buf).head? =
      some (addr, buf.take (min buf.length (kBytesPerPage - addr % kBytesPerPage))) := by
  have hmod : addr % kBytesPerPage < kBytesPerPage :=
    Nat.mod_lt _ (by simp [kBytesPerPage])
  have hlen : 0 < buf.length := List.length_pos.mpr hb
  refine ⟨?_, ?_, ?_⟩
  · exact chunkLoop_join buf.length addr buf _ le_rfl (Nat.min_le_left _ _)
      (fun _ => by simp only [kBytesPerPage] at *; omega)
  · apply chunkLoop_good buf.length addr buf _ le_rfl (Nat.min_le_left _ _)
      (fun _ => by simp only [kBytesPerPage] at *; omega)
      (Nat.min_le_right _ _)
    intro hlt
    simp only [kBytesPerPage] at *
    omega
  · cases buf with
    | nil => exact absurd rfl hb
    | cons x xs =>
      simp [writeChunks, chunkLoop]

set_option maxRecDepth 8192 in
/-- Witness for C5: a 520-byte buffer written starting at offset 100
spans three pages; the chunk list starts with a 156-byte chunk. -/
theorem write_chunking_spec_witness :
    ((writeChunks 100 (List.replicate 520 7)).map Prod.snd).flatten =
      List.replicate 520 7 ∧
    chunksFrom 100 (writeChunks 100 (List.replicate 520 7)) ∧
    (writeChunks 100 (List.replicate 520 7)).head? =
      some (100, List.replicate 156 7) := by
  have hne : List.replicate 520 7 ≠ [] :=
    List.ne_nil_of_length_pos (by rw [List.length_replicate]; norm_num)
  have h := write_chunking_spec 100 (List.replicate 520 7) hne
  refine ⟨h.1, h.2.1, ?_⟩
  have h3 := h.2.2
  rw [h3]
  rw [List.length_replicate, List.take_replicate]
  norm_num [kBytesPerPage]

/-! ## Wear-leveled pulse counter (`main.cpp`)

The counter is backed by `kPulseCountWords` consecutive 32-bit EEPROM
slots, modelled as a `List Nat`.  The source fixes the slot count to 16;
the spec allows any `K ≥ 1` (reference design `K = 16`), so the
definitions below are generic in the list length, with the loop bound
and modulus `kPulseCountWords` of the source becoming the length. -/

/-- Number of 4-byte words used for the pulse count (`kPulseCountWords`
in `main.cpp`). -/
def kPulseCountWords : Nat := 16

/-- The all-ones 32-bit sentinel `0xFFFFFFFF` marking a blank slot. -/
def blankSlot : Nat := 4294967295

/-- The correction pass of `LoadPulseCount`: every slot equal to
`0xFFFFFFFF` is replaced by zero. -/
def correctSlots (pcs : List Nat) : List Nat :=
  pcs.map fun v => if v = blankSlot then 0 else v

/-- The `modified` flag of `LoadPulseCount`: whether any slot held the
blank sentinel (and hence the corrected array is flushed back once). -/
def slotsModified (pcs : List Nat) : Bool :=
  pcs.any fun v => v == blankSlot

/-- The scan loop of `LoadPulseCount`
(`for i ...: if pcs[(i+1) % K] <= pcs[i] then break`): starting at index
`i`, return `(pcs[i], (i+1) % K)` for the first index whose successor
slot (mod K) holds a value less than or equal to it, or `none` when the
loop runs off the end.  `fuel` bounds the remaining iterations
(`pcs.length` iterations suffice since `i` starts at 0); it only makes
the recursion structural. -/
def findWrapF : Nat → List Nat → Nat → Option (Nat × Nat)
  | 0, _, _ => none
  | fuel + 1, pcs, i =>
    if i < pcs.length then
      if pcs.getD ((i + 1) % pcs.length) 0 ≤ pcs.getD i 0 then
        some (pcs.getD i 0, (i + 1) % pcs.length)
      else findWrapF fuel pcs (i + 1)
    else none

/-- Result of `LoadPulseCount`: the corrected RAM copy of the slots,
whether the corrected array was flushed back to the EEPROM (which
happens at most once, guarded by `modified`), and the values assigned to
the globals `pulsecount` / `next_pulsecount_idx` (`none` = the loop
found no transition and left them untouched). -/
structure CounterLoad where
  slots : List Nat
  wroteBack : Bool
  pulsecount : Option Nat
  next_idx : Option Nat
deriving DecidableEq

/-- `LoadPulseCount` from `main.cpp`: read all slots, zero the blank
ones (flushing the corrected array back once if anything changed), then
scan for the first index whose successor holds a value `≤` it. -/
def LoadPulseCount (pcs : List Nat) : CounterLoad :=
  let cs := correctSlots pcs
  match findWrapF cs.length cs 0 with
  | some (v, ni) => ⟨cs, slotsModified pcs, some v, some ni⟩
  | none => ⟨cs, slotsModified pcs, none, none⟩

/-- In-memory wear-leveling state: the EEPROM slot array and the global
`next_pulsecount_idx`. -/
structure CounterState where
  slots : List Nat
  next_idx : Nat
deriving DecidableEq

/-- `StorePulseCount` from `main.cpp`: write the value to the slot at
the current next write index, then advance the index by one modulo the
slot count. -/
def StorePulseCount (st : CounterState) (pc : Nat) : CounterState :=
  ⟨st.slots.set st.next_idx pc, (st.next_idx + 1) % st.slots.length⟩

/-- `ResetPulseCount` from `main.cpp`: zero every slot and reset the
next write index to 0. -/
def ResetPulseCount (st : CounterState) : CounterState :=
  ⟨List.replicate st.slots.length 0, 0⟩

/-! ### Lemmas about the load scan -/

theorem correctSlots_length (pcs : List Nat) :
    (correctSlots pcs).length = pcs.length := by
  simp [correctSlots]

theorem findWrapF_found (pcs : List Nat) (j : Nat) (hj : j < pcs.length)
    (hP : pcs.getD ((j + 1) % pcs.length) 0 ≤ pcs.getD j 0) :
    ∀ (fuel i : Nat), i ≤ j → pcs.length ≤ i + fuel →
      (∀ k, i ≤ k → k < j →
        ¬ (pcs.getD ((k + 1) % pcs.length) 0 ≤ pcs.getD k 0)) →
      findWrapF fuel pcs i = some (pcs.getD j 0, (j + 1) % pcs.length) := by
  intro fuel
  induction fuel with
  | zero => intro i hij hfuel _; omega
  | succ fuel ih =>
    intro i hij hfuel hmin
    have hi : i < pcs.length := by omega
    by_cases hQ : pcs.getD ((i + 1) % pcs.length) 0 ≤ pcs.getD i 0
    · have hieq : i = j := by
        by_contra hne
        exact hmin i le_rfl (by omega) hQ
      subst hieq
      simp only [findWrapF]
      rw [if_pos hi, if_pos hQ]
    · have hilt : i < j := by
        rcases Nat.lt_or_ge i j with h | h
        · exact h
        · have : i = j := by omega
          subst this
          exact absurd hP hQ
      simp only [findWrapF, hi, if_true, hQ, if_false]
      exact ih (i + 1) (by omega) (by omega) (fun k hk1 hk2 => hmin k (by omega) hk2)

theorem exists_wrap16 (pcs : List Nat) (_h : pcs.length = 16) :
    ∃ j, j < 16 ∧ pcs.getD ((j + 1) % 16) 0 ≤ pcs.getD j 0 := by
  by_contra hc
  push_neg at hc
  have h0 := hc 0 (by norm_num)
  have h1 := hc 1 (by norm_num)
  have h2 := hc 2 (by norm_num)
  have h3 := hc 3 (by norm_num)
  have h4 := hc 4 (by norm_num)
  have h5 := hc 5 (by norm_num)
  have h6 := hc 6 (by norm_num)
  have h7 := hc 7 (by norm_num)
  have h8 := hc 8 (by norm_num)
  have h9 := hc 9 (by norm_num)
  have h10 := hc 10 (by norm_num)
  have h11 := hc 11 (by norm_num)
  have h12 := hc 12 (by norm_num)
  have h13 := hc 13 (by norm_num)
  have h14 := hc 14 (by norm_num)
  have h15 := hc 15 (by norm_num)
  norm_num at h0 h1 h2 h3 h4 h5 h6 h7 h8 h9 h10 h11 h12 h13 h14 h15
  omega

/-- C2: `LoadPulseCount` reads all 16 slots; every slot equal to
`0xFFFFFFFF` is replaced by zero in the RAM copy, and the corrected
array is flushed back (exactly once) iff at least one slot was blank;
the in-memory counter is then set to the value of the first slot `i`
(scanning from 0) whose successor slot `(i+1) mod 16` holds a value
`≤` it, and the next write index to that successor; when all corrected
slots are equal the counter is slot 0's value and the next index is 1. -/
theorem load_pulse_count_spec (pcs : List Nat) (hlen : pcs.length = 16) :
    (∀ j, j < 16 → (LoadPulseCount pcs).slots.getD j 0 =
      (if pcs.getD j 0 = blankSlot then 0 else pcs.getD j 0)) ∧
    ((LoadPulseCount pcs).wroteBack = true ↔ blankSlot ∈ pcs) ∧
    (∃ i, i < 16 ∧
      (∀ k, k < i → ¬ ((correctSlots pcs).getD ((k + 1) % 16) 0 ≤
        (correctSlots pcs).getD k 0)) ∧
      (correctSlots pcs).getD ((i + 1) % 16) 0 ≤ (correctSlots pcs).getD i 0 ∧
      (LoadPulseCount pcs).pulsecount = some ((correctSlots pcs).getD i 0) ∧
      (LoadPulseCount pcs).next_idx = some ((i + 1) % 16)) ∧
    ((∀ v ∈ correctSlots pcs, v = (correctSlots pcs).getD 0 0) →
      (LoadPulseCount pcs).pulsecount = some ((correctSlots pcs).getD 0 0) ∧
      (LoadPulseCount pcs).next_idx = some 1) := by
  set cs := correctSlots pcs with hcs
  have hcl : cs.length = 16 := by rw [hcs, correctSlots_length, hlen]
  obtain ⟨j, hj, hPj⟩ := exists_wrap16 cs hcl
  have hex : ∃ k, cs.getD ((k + 1) % 16) 0 ≤ cs.getD k 0 := ⟨j, hPj⟩
  have hfind := Nat.find_spec hex
  set i0 := Nat.find hex with hi0
  have hi0le : i0 ≤ j := Nat.find_le hPj
  have hi0lt : i0 < 16 := by omega
  have hmin : ∀ k, k < i0 → ¬ (cs.getD ((k + 1) % 16) 0 ≤ cs.getD k 0) :=
    fun k hk => Nat.find_min hex hk
  have heq : findWrapF cs.length cs 0 =
      some (cs.getD i0 0, (i0 + 1) % 16) := by
    have key := findWrapF_found cs i0 (by omega)
      (by rw [hcl]; exact hfind) cs.length 0 (by omega)
      (by omega) (fun k _ hk2 => by rw [hcl]; exact hmin k hk2)
    rw [key, hcl]
  refine ⟨?_, ?_, ?_, ?_⟩
  · intro k hk
    simp only [LoadPulseCount]
    rw [← hcs, heq]
    simp only
    rw [hcs, correctSlots]
    rw [List.getD_eq_getElem _ _ (by rw [List.length_map]; omega), List.getElem_map,
      ← List.getD_eq_getElem _ 0 (by omega)]
  · simp only [LoadPulseCount]
    rw [← hcs, heq]
    simp [slotsModified, List.any_eq_true]
  · refine ⟨i0, hi0lt, fun k hk => hmin k hk, hfind, ?_, ?_⟩ <;>
      simp only [LoadPulseCount] <;> rw [← hcs, heq]
  · intro hall
    have h1mem : cs.getD 1 0 ∈ cs := by
      rw [List.getD_eq_getElem _ _ (by omega)]
      exact List.getElem_mem _
    have hP0 : cs.getD ((0 + 1) % 16) 0 ≤ cs.getD 0 0 := by
      have h116 : (0 + 1) % 16 = 1 := by norm_num
      rw [h116, hall _ h1mem]
    have hz : i0 = 0 := by
      by_contra hnz
      exact absurd hP0 (hmin 0 (by omega))
    constructor <;> simp only [LoadPulseCount] <;> rw [← hcs, heq, hz]

/-- Witness for C2: a slot array with one blank slot
(`0xFFFFFFFF` at index 2) and a wrap at index 1 (value 2, next index
2), applied through `load_pulse_count_spec`. -/
theorem load_pulse_count_spec_witness :
    ([1, 2, 4294967295, 2, 0, 0, 0, 0, 0, 0, 0, 0, 0, 0, 0, 0] : List Nat).length = 16 ∧
    ((LoadPulseCount [1, 2, 4294967295, 2, 0, 0, 0, 0, 0, 0, 0, 0, 0, 0, 0, 0]).wroteBack = true ∧
      (LoadPulseCount [1, 2, 4294967295, 2, 0, 0, 0, 0, 0, 0, 0, 0, 0, 0, 0, 0]).pulsecount = some 2 ∧
      (LoadPulseCount [1, 2, 4294967295, 2, 0, 0, 0, 0, 0, 0, 0, 0, 0, 0, 0, 0]).next_idx = some 2) := by
  have h := load_pulse_count_spec
    [1, 2, 4294967295, 2, 0, 0, 0, 0, 0, 0, 0, 0, 0, 0, 0, 0] (by decide)
  refine ⟨by decide, h.2.1.mpr (by decide), ?_, ?_⟩ <;> decide

/-- C3: `StorePulseCount(value)` writes the value to the slot at the
current next write index and advances the index by one modulo the slot
count; starting from the reset state with `K = 4`, the sequence
`Store 1, ..., Store 5` followed by `LoadPulseCount` yields counter
value 5 and next write index 1, slot 0 now holding 5 — its original
(oldest) value having been overwritten. -/
theorem store_pulse_count_spec :
    (∀ (st : CounterState) (v : Nat),
      (StorePulseCount st v).slots = st.slots.set st.next_idx v ∧
      (StorePulseCount st v).next_idx = (st.next_idx + 1) % st.slots.length) ∧
    ((StorePulseCount (StorePulseCount (StorePulseCount (StorePulseCount
        (StorePulseCount ⟨[0, 0, 0, 0], 0⟩ 1) 2) 3) 4) 5).slots = [5, 2, 3, 4] ∧
      (StorePulseCount (StorePulseCount (StorePulseCount (StorePulseCount
        (StorePulseCount ⟨[0, 0, 0, 0], 0⟩ 1) 2) 3) 4) 5).next_idx = 1 ∧
      (LoadPulseCount [5, 2, 3, 4]).pulsecount = some 5 ∧
      (LoadPulseCount [5, 2, 3, 4]).next_idx = some 1) := by
  constructor
  · intro st v
    exact ⟨rfl, rfl⟩
  · refine ⟨by decide, by decide, by decide, by decide⟩

/-! ## Identity record (`DeviceInfo.h`)

Bytes are `Nat`s; the C `char` buffers hold values 0..255, recorded
where needed by the well-formedness predicate `blockWf`. -/

/-- The erased-EEPROM sentinel byte `0xFF`. -/
def sentinelByte : Nat := 255

/-- `std::isprint` (C locale) on a byte: printable iff `0x20 ≤ b ≤ 0x7E`. -/
def isPrintByte (b : Nat) : Bool := 32 ≤ b && b ≤ 126

/-- `DeviceInfoString`: the 64-byte field buffer (`char data[64]`). -/
structure DeviceInfoString where
  data : List Nat
deriving DecidableEq

namespace DeviceInfoString

/-- `DeviceInfoString::Clear`: zero the whole 64-byte buffer. -/
def Clear : DeviceInfoString := ⟨List.replicate 64 0⟩

/-- `DeviceInfoString::Validate`: if any byte is `0xFF` (`memchr`),
clear the field and report invalid; returns the (possibly cleared)
field together with the validity flag. -/
def Validate (s : DeviceInfoString) : DeviceInfoString × Bool :=
  if sentinelByte ∈ s.data then (Clear, false) else (s, true)

/-- `DeviceInfoString::Set`: copy at most 63 bytes of `str`
(`str.copy(data, sizeof(data) - 1)`), then zero-fill the remainder of
the 64-byte buffer (`std::fill_n`). -/
def Set (str : List Nat) : DeviceInfoString :=
  ⟨str.take 63 ++ List.replicate (64 - min str.length 63) 0⟩

/-- `DeviceInfoString::Get`: the view of the buffer up to (excluding)
the first NUL or `0xFF` byte (`find_first_of("\0\xFF")`). -/
def Get (s : DeviceInfoString) : List Nat :=
  s.data.takeWhile fun b => !(b == 0 || b == sentinelByte)

/-- `DeviceInfoString::Sum`: 8-bit wraparound sum of the 64 buffer
bytes (each `char` cast to `uint8_t`, accumulated in a `uint8_t`). -/
def Sum (s : DeviceInfoString) : Nat :=
  s.data.foldl (fun acc b => (acc + b % 256) % 256) 0

end DeviceInfoString

/-- The assignment path of `HandleSerialMessage` restricted to one
field: reject (keep the old field) if any byte of the value is
non-printable (`std::any_of(val, is_invalid)`), otherwise
`DeviceInfoString::Set`. -/
def setChecked (s : DeviceInfoString) (str : List Nat) : DeviceInfoString :=
  if str.any (fun b => !(isPrintByte b)) then s else DeviceInfoString.Set str

/-- `DeviceInfoBlock`: the ten named 64-byte fields plus the trailing
checksum byte, exactly as laid out in the source struct. -/
structure DeviceInfoBlock where
  mfg : DeviceInfoString
  name : DeviceInfoString
  ver : DeviceInfoString
  date : DeviceInfoString
  part : DeviceInfoString
  mfgserial : DeviceInfoString
  user1 : DeviceInfoString
  user2 : DeviceInfoString
  user3 : DeviceInfoString
  user4 : DeviceInfoString
  checksum : Nat
deriving DecidableEq

/-- The field keys used by `DeviceInfoBlock::LookupField`. -/
inductive FieldKey
  | mfg | name | ver | date | part | mfgserial | user1 | user2 | user3 | user4
deriving DecidableEq

/-- ASCII bytes of a key string. -/
def strBytes (s : String) : List Nat := s.toList.map Char.toNat

/-- The serial-protocol key of each field. -/
def keyBytes : FieldKey → List Nat
  | .mfg => strBytes "MFG"
  | .name => strBytes "NAME"
  | .ver => strBytes "VER"
  | .date => strBytes "DATE"
  | .part => strBytes "PART"
  | .mfgserial => strBytes "MFGSERIAL"
  | .user1 => strBytes "USER1"
  | .user2 => strBytes "USER2"
  | .user3 => strBytes "USER3"
  | .user4 => strBytes "USER4"

/-- `DeviceInfoBlock::LookupField`: map a key to the corresponding
field (here: to a `FieldKey` selector, the model of the returned
pointer), or `none` for an unknown key. -/
def LookupField (key : List Nat) : Option FieldKey :=
  if key = strBytes "MFG" then some .mfg
  else if key = strBytes "NAME" then some .name
  else if key = strBytes "VER" then some .ver
  else if key = strBytes "DATE" then some .date
  else if key = strBytes "PART" then some .part
  else if key = strBytes "MFGSERIAL" then some .mfgserial
  else if key = strBytes "USER1" then some .user1
  else if key = strBytes "USER2" then some .user2
  else if key = strBytes "USER3" then some .user3
  else if key = strBytes "USER4" then some .user4
  else none

/-- Read a field through its key (the model of dereferencing the
pointer returned by `LookupField`). -/
def getField (b : DeviceInfoBlock) : FieldKey → DeviceInfoString
  | .mfg => b.mfg
  | .name => b.name
  | .ver => b.ver
  | .date => b.date
  | .part => b.part
  | .mfgserial => b.mfgserial
  | .user1 => b.user1
  | .user2 => b.user2
  | .user3 => b.user3
  | .user4 => b.user4

/-- Replace a field through its key (the model of writing through the
pointer returned by `LookupField`). -/
def setField (b : DeviceInfoBlock) : FieldKey → DeviceInfoString → DeviceInfoBlock
  | .mfg, s => { b with mfg := s }
  | .name, s => { b with name := s }
  | .ver, s => { b with ver := s }
  | .date, s => { b with date := s }
  | .part, s => { b with part := s }
  | .mfgserial, s => { b with mfgserial := s }
  | .user1, s => { b with user1 := s }
  | .user2, s => { b with user2 := s }
  | .user3, s => { b with user3 := s }
  | .user4, s => { b with user4 := s }

/-- `DeviceInfoBlock::Validate`: validate all ten fields (the source
uses `ok &= field.Validate()`, a non-short-circuiting boolean AND, in
the order mfg..mfgserial, user1, user3, user2, user4); returns the
corrected block and whether every field was valid. -/
def DeviceInfoBlock.Validate (b : DeviceInfoBlock) : DeviceInfoBlock × Bool :=
  (⟨(b.mfg.Validate).1, (b.name.Validate).1, (b.ver.Validate).1,
    (b.date.Validate).1, (b.part.Validate).1, (b.mfgserial.Validate).1,
    (b.user1.Validate).1, (b.user2.Validate).1, (b.user3.Validate).1,
    (b.user4.Validate).1, b.checksum⟩,
   (b.mfg.Validate).2 && (b.name.Validate).2 && (b.ver.Validate).2 &&
     (b.date.Validate).2 && (b.part.Validate).2 && (b.mfgserial.Validate).2 &&
     (b.user1.Validate).2 && (b.user3.Validate).2 && (b.user2.Validate).2 &&
     (b.user4.Validate).2)

/-- `DeviceInfoBlock::ComputeChecksum`: 8-bit wraparound sum of the ten
per-field sums, in declared field order, excluding the checksum byte. -/
def DeviceInfoBlock.ComputeChecksum (b : DeviceInfoBlock) : Nat :=
  (b.mfg.Sum + b.name.Sum + b.ver.Sum + b.date.Sum + b.part.Sum +
    b.mfgserial.Sum + b.user1.Sum + b.user2.Sum + b.user3.Sum +
    b.user4.Sum) % 256

/-- The serialized byte image of the ten fields in declared order
(the struct bytes that precede the checksum byte). -/
def DeviceInfoBlock.fieldBytes (b : DeviceInfoBlock) : List Nat :=
  b.mfg.data ++ b.name.data ++ b.ver.data ++ b.date.data ++ b.part.data ++
    b.mfgserial.data ++ b.user1.data ++ b.user2.data ++ b.user3.data ++
    b.user4.data

/-- The byte-for-byte EEPROM image of the block: the ten fields in
declared order followed by the checksum byte (the POD struct layout). -/
def DeviceInfoBlock.serialize (b : DeviceInfoBlock) : List Nat :=
  b.fieldBytes ++ [b.checksum]

/-- Byte offset of each field inside the serialized block. -/
def fieldOffset : FieldKey → Nat
  | .mfg => 0
  | .name => 64
  | .ver => 128
  | .date => 192
  | .part => 256
  | .mfgserial => 320
  | .user1 => 384
  | .user2 => 448
  | .user3 => 512
  | .user4 => 576

/-- Well-formedness of a block as loaded from the 64-byte-per-field
struct: every field holds exactly 64 bytes, each a byte value. -/
def blockWf (b : DeviceInfoBlock) : Prop :=
  ∀ k : FieldKey, (getField b k).data.length = 64 ∧
    ∀ x ∈ (getField b k).data, x < 256

/-- The all-zero cleared record (`data = {}` in the source: every
field zeroed and checksum 0). -/
def emptyBlock : DeviceInfoBlock :=
  ⟨⟨List.replicate 64 0⟩, ⟨List.replicate 64 0⟩, ⟨List.replicate 64 0⟩,
   ⟨List.replicate 64 0⟩, ⟨List.replicate 64 0⟩, ⟨List.replicate 64 0⟩,
   ⟨List.replicate 64 0⟩, ⟨List.replicate 64 0⟩, ⟨List.replicate 64 0⟩,
   ⟨List.replicate 64 0⟩, 0⟩

/-! ### Validation of the record (C6) -/

theorem string_validate_fst (s : DeviceInfoString) :
    (s.Validate).1 = if sentinelByte ∈ s.data then DeviceInfoString.Clear else s := by
  rw [DeviceInfoString.Validate]
  split <;> rfl

theorem string_validate_snd (s : DeviceInfoString) :
    (s.Validate).2 = true ↔ sentinelByte ∉ s.data := by
  rw [DeviceInfoString.Validate]
  split <;> simp_all

theorem block_validate_field (b : DeviceInfoBlock) (k : FieldKey) :
    getField (b.Validate).1 k = ((getField b k).Validate).1 := by
  cases k <;> rfl

theorem block_validate_flag (b : DeviceInfoBlock) :
    (b.Validate).2 = true ↔ ∀ k : FieldKey, sentinelByte ∉ (getField b k).data := by
  have h : (b.Validate).2 = ((b.mfg.Validate).2 && (b.name.Validate).2 &&
      (b.ver.Validate).2 && (b.date.Validate).2 && (b.part.Validate).2 &&
      (b.mfgserial.Validate).2 && (b.user1.Validate).2 && (b.user3.Validate).2 &&
      (b.user2.Validate).2 && (b.user4.Validate).2) := rfl
  rw [h]
  simp only [Bool.and_eq_true, string_validate_snd]
  constructor
  · intro hall k
    cases k
    · exact hall.1.1.1.1.1.1.1.1.1
    · exact hall.1.1.1.1.1.1.1.1.2
    · exact hall.1.1.1.1.1.1.1.2
    · exact hall.1.1.1.1.1.1.2
    · exact hall.1.1.1.1.1.2
    · exact hall.1.1.1.1.2
    · exact hall.1.1.1.2
    · exact hall.1.2
    · exact hall.1.1.2
    · exact hall.2
  · intro hk
    exact ⟨⟨⟨⟨⟨⟨⟨⟨⟨hk .mfg, hk .name⟩, hk .ver⟩, hk .date⟩, hk .part⟩,
      hk .mfgserial⟩, hk .user1⟩, hk .user3⟩, hk .user2⟩, hk .user4⟩

/-- C6: `DeviceInfoBlock::Validate` zero-clears the entirety of every
field containing at least one `0xFF` byte, leaves every field without a
`0xFF` byte unchanged, and returns `false` iff at least one field
needed clearing; in particular a field pre-filled entirely with `0xFF`
validates to `false` with an all-zero result. -/
theorem validate_block_spec (b : DeviceInfoBlock) :
    (∀ k : FieldKey, sentinelByte ∈ (getField b k).data →
      getField (b.Validate).1 k = DeviceInfoString.Clear) ∧
    (∀ k : FieldKey, sentinelByte ∉ (getField b k).data →
      getField (b.Validate).1 k = getField b k) ∧
    ((b.Validate).2 = false ↔ ∃ k : FieldKey, sentinelByte ∈ (getField b k).data) ∧
    DeviceInfoString.Validate ⟨List.replicate 64 sentinelByte⟩ =
      (⟨List.replicate 64 0⟩, false) := by
  refine ⟨?_, ?_, ?_, ?_⟩
  · intro k hk
    rw [block_validate_field, string_validate_fst, if_pos hk]
  · intro k hk
    rw [block_validate_field, string_validate_fst, if_neg hk]
  · rw [← Bool.not_eq_true, block_validate_flag]
    simp only [not_forall, not_not]
  · rw [DeviceInfoString.Validate, if_pos (by simp [sentinelByte])]
    rfl

/-- Witness for C6: a block whose `MFG` field is all-`0xFF` — the field
is cleared, `NAME` (sentinel-free) is untouched, and the flag is
`false`. -/
theorem validate_block_spec_witness :
    getField (DeviceInfoBlock.Validate
      { emptyBlock with mfg := ⟨List.replicate 64 sentinelByte⟩ }).1 .mfg =
        DeviceInfoString.Clear ∧
    getField (DeviceInfoBlock.Validate
      { emptyBlock with mfg := ⟨List.replicate 64 sentinelByte⟩ }).1 .name =
        getField { emptyBlock with mfg := ⟨List.replicate 64 sentinelByte⟩ } .name ∧
    (DeviceInfoBlock.Validate
      { emptyBlock with mfg := ⟨List.replicate 64 sentinelByte⟩ }).2 = false := by
  have h := validate_block_spec
    { emptyBlock with mfg := ⟨List.replicate 64 sentinelByte⟩ }
  exact ⟨h.1 .mfg (by decide), h.2.1 .name (by decide),
    h.2.2.1.mpr ⟨.mfg, by decide⟩⟩

/-! ### Field assignment semantics (C8) -/

/-- C8: the assignment path rejects (no-op on the field) any text with
a non-printable byte; otherwise it applies `DeviceInfoString::Set`,
which truncates to at most 63 bytes, copies them, and zero-pads the
rest of the 64-byte buffer (persisting nothing itself — the field value
is merely returned); `Set []` followed by `Get` is empty, and `Set` of
text longer than 63 bytes stores exactly the first 63 bytes (plus NUL
padding). -/
theorem set_field_spec :
    (∀ (s : DeviceInfoString) (str : List Nat),
      (∃ x ∈ str, isPrintByte x = false) → setChecked s str = s) ∧
    (∀ (s : DeviceInfoString) (str : List Nat),
      (∀ x ∈ str, isPrintByte x = true) →
      setChecked s str = DeviceInfoString.Set str) ∧
    (∀ str : List Nat,
      (DeviceInfoString.Set str).data.length = 64 ∧
      (∀ i, i < min str.length 63 →
        (DeviceInfoString.Set str).data.getD i 0 = str.getD i 0) ∧
      (∀ i, min str.length 63 ≤ i → i < 64 →
        (DeviceInfoString.Set str).data.getD i 0 = 0)) ∧
    (DeviceInfoString.Set []).Get = [] ∧
    (∀ str : List Nat, 63 < str.length →
      (DeviceInfoString.Set str).data = str.take 63 ++ [0]) := by
  refine ⟨?_, ?_, ?_, by decide, ?_⟩
  · intro s str hex
    rw [setChecked, if_pos]
    simp only [List.any_eq_true, Bool.not_eq_eq_eq_not, Bool.not_true]
    obtain ⟨x, hx, hpx⟩ := hex
    exact ⟨x, hx, hpx⟩
  · intro s str hall
    rw [setChecked, if_neg]
    simp only [List.any_eq_true, Bool.not_eq_eq_eq_not, Bool.not_true, not_exists]
    rintro x ⟨hx, hpx⟩
    rw [hall x hx] at hpx
    cases hpx
  · intro str
    have hlt : (str.take 63).length = min str.length 63 := by
      simp [List.length_take, Nat.min_comm]
    refine ⟨?_, ?_, ?_⟩
    · simp only [DeviceInfoString.Set, List.length_append, List.length_replicate, hlt]
      omega
    · intro i hi
      have hib : i < (str.take 63 ++ List.replicate (64 - min str.length 63) 0).length := by
        rw [List.length_append, List.length_replicate, hlt]
        omega
      have hia : i < (str.take 63).length := by
        rw [hlt]
        omega
      simp only [DeviceInfoString.Set]
      rw [List.getD_eq_getElem _ _ hib, List.getElem_append_left hia,
        List.getElem_take]
      exact (List.getD_eq_getElem _ _ (by omega)).symm
    · intro i hge hlt64
      have hib : i < (str.take 63 ++ List.replicate (64 - min str.length 63) 0).length := by
        rw [List.length_append, List.length_replicate, hlt]
        omega
      have hia : (str.take 63).length ≤ i := by
        rw [hlt]
        omega
      simp only [DeviceInfoString.Set]
      rw [List.getD_eq_getElem _ _ hib, List.getElem_append_right hia]
      simp
  · intro str hstr
    simp only [DeviceInfoString.Set]
    have h63 : min str.length 63 = 63 := by omega
    rw [h63]
    rfl

/-- Witness for C8: a newline-containing value is rejected, a printable
value is set, and a 70-byte value is truncated to 63 bytes. -/
theorem set_field_spec_witness :
    setChecked ⟨List.replicate 64 0⟩ [65, 10, 66] = ⟨List.replicate 64 0⟩ ∧
    setChecked ⟨List.replicate 64 0⟩ [65, 66] = DeviceInfoString.Set [65, 66] ∧
    (DeviceInfoString.Set (List.replicate 70 65)).data =
      (List.replicate 70 65).take 63 ++ [0] := by
  refine ⟨set_field_spec.1 _ _ ⟨10, by decide, by decide⟩,
    set_field_spec.2.1 _ _ (by decide),
    set_field_spec.2.2.2.2 _ (by simp)⟩

/-! ## Command processor (`HandleSerialMessage` in `main.cpp`) -/

/-- `message.find_first_of("=?")` combined with the two `substr` calls:
split a message at the first `'='` (61) or `'?'` (63) byte into
(header, punct byte, rest); `none` when no such byte occurs (then the
whole message is the header of a bare command). -/
def splitPunct : List Nat → Option (List Nat × Nat × List Nat)
  | [] => none
  | b :: rest =>
    if b == 61 || b == 63 then some ([], b, rest)
    else (splitPunct rest).map fun x => (b :: x.1, x.2.1, x.2.2)

/-- The line printed by `printf("%s\n", p)` for a raw byte pointer:
the bytes up to (excluding) the first NUL, read off consecutive
addresses starting at `p`. -/
def cstr (l : List Nat) : List Nat := l.takeWhile fun b => b != 0

/-- The process-wide state touched by `HandleSerialMessage`: the
in-RAM record `data`, its persisted EEPROM image, the write-lock pin
(`WriteLockEnabled`, polled), the board-id string, and the pulse
counter state and globals. -/
structure SysState where
  data : DeviceInfoBlock
  persisted : DeviceInfoBlock
  writeLock : Bool
  boardId : List Nat
  counter : CounterState
  pulsecount : Nat
  last_pulsecount : Nat
deriving DecidableEq

/-- `StoreDeviceInfo`: write the in-RAM record byte-for-byte to the
EEPROM (transport assumed error-free, so `Panic` is unreachable). -/
def StoreDeviceInfo (st : SysState) : SysState :=
  { st with persisted := st.data }

/-- The in-RAM record after the accepted-assignment path:
`field->Set(val); data.checksum = data.ComputeChecksum()`. -/
def assignBlock (b : DeviceInfoBlock) (f : FieldKey) (v : List Nat) : DeviceInfoBlock :=
  let d1 := setField b f (DeviceInfoString.Set v)
  { d1 with checksum := d1.ComputeChecksum }

/-- `HandleSerialMessage`: parse one CR-terminated line (already
stripped of the CR) and dispatch.  Returns the new state and the list
of response lines printed (each without its trailing newline). -/
def HandleSerialMessage (st : SysState) (msg : List Nat) : SysState × List (List Nat) :=
  if msg = [] then (st, [])
  else
    match splitPunct msg with
    | some (header, p, rest) =>
      if p == 61 then
        if st.writeLock then (st, [])
        else
          match LookupField header with
          | some f =>
            if rest.any (fun b => !(isPrintByte b)) then (st, [])
            else (StoreDeviceInfo { st with data := assignBlock st.data f rest }, [])
          | none => (st, [])
      else
        match LookupField header with
        | some f => (st, [cstr (st.data.serialize.drop (fieldOffset f))])
        | none =>
          if header = strBytes "SERIAL" then (st, [st.boardId])
          else if header = strBytes "CHECK" then
            if st.data.ComputeChecksum == st.data.checksum then (st, [strBytes "OK"])
            else (st, [strBytes "ERR"])
          else if header = strBytes "PULSECOUNT" then
            (st, [strBytes (toString st.pulsecount)])
          else (st, [])
    | none =>
      if msg = strBytes "CLEAR" then
        if st.writeLock then (st, [])
        else (StoreDeviceInfo { st with data := emptyBlock }, [])
      else if msg = strBytes "RESETCOUNT" then
        ({ st with counter := ResetPulseCount st.counter,
                   pulsecount := 0, last_pulsecount := 0 }, [])
      else (st, [])

/-! ### Parsing and lookup lemmas -/

theorem splitPunct_append (h : List Nat) (b : Nat) (v : List Nat)
    (hh : ∀ c ∈ h, (c == 61 || c == 63) = false)
    (hb : (b == 61 || b == 63) = true) :
    splitPunct (h ++ b :: v) = some (h, b, v) := by
  induction h with
  | nil => simp [splitPunct, hb]
  | cons c cs ih =>
    have hc : (c == 61 || c == 63) = false := hh c (List.mem_cons_self c cs)
    simp only [List.cons_append, splitPunct, hc, Bool.false_eq_true, if_false,
      List.append_eq]
    rw [ih (fun x hx => hh x (List.mem_cons_of_mem c hx))]
    rfl

theorem keyBytes_no_punct (f : FieldKey) :
    ∀ c ∈ keyBytes f, (c == 61 || c == 63) = false := by
  cases f <;> decide

theorem lookup_keyBytes (f : FieldKey) : LookupField (keyBytes f) = some f := by
  cases f <;> decide

set_option maxHeartbeats 2000000 in
theorem lookup_eq_keyBytes (h : List Nat) (f : FieldKey)
    (hl : LookupField h = some f) : h = keyBytes f := by
  rw [LookupField] at hl
  split_ifs at hl with c1 c2 c3 c4 c5 c6 c7 c8 c9 c10
  · cases hl; exact c1
  · cases hl; exact c2
  · cases hl; exact c3
  · cases hl; exact c4
  · cases hl; exact c5
  · cases hl; exact c6
  · cases hl; exact c7
  · cases hl; exact c8
  · cases hl; exact c9
  · cases hl; exact c10

theorem getField_setField (b : DeviceInfoBlock) (f k : FieldKey) (s : DeviceInfoString) :
    getField (setField b f s) k = if k = f then s else getField b k := by
  cases f <;> cases k <;> rfl

theorem getField_checksum_update (b : DeviceInfoBlock) (c : Nat) (k : FieldKey) :
    getField { b with checksum := c } k = getField b k := by
  cases k <;> rfl

theorem getField_assignBlock (b : DeviceInfoBlock) (f k : FieldKey) (v : List Nat) :
    getField (assignBlock b f v) k =
      if k = f then DeviceInfoString.Set v else getField b k := by
  rw [assignBlock]
  rw [getField_checksum_update, getField_setField]

theorem computeChecksum_checksum_update (b : DeviceInfoBlock) (c : Nat) :
    DeviceInfoBlock.ComputeChecksum { b with checksum := c } =
      b.ComputeChecksum := rfl

/-! ### Serialized-image lemmas -/

theorem serialize_drop (b : DeviceInfoBlock)
    (hl : ∀ k : FieldKey, (getField b k).data.length = 64) (f : FieldKey) :
    b.serialize.drop (fieldOffset f) =
      (getField b f).data ++ b.serialize.drop (fieldOffset f + 64) := by
  have h1 := hl .mfg
  have h2 := hl .name
  have h3 := hl .ver
  have h4 := hl .date
  have h5 := hl .part
  have h6 := hl .mfgserial
  have h7 := hl .user1
  have h8 := hl .user2
  have h9 := hl .user3
  have h10 := hl .user4
  simp only [getField] at h1 h2 h3 h4 h5 h6 h7 h8 h9 h10
  cases f <;>
    simp [DeviceInfoBlock.serialize, DeviceInfoBlock.fieldBytes, getField,
      fieldOffset, List.drop_append_eq_append_drop, h1, h2, h3, h4, h5, h6,
      h7, h8, h9, h10, List.drop_eq_nil_of_le]

theorem cstr_append_of_zero (d t : List Nat) (h : 0 ∈ d) :
    cstr (d ++ t) = cstr d := by
  induction d with
  | nil => cases h
  | cons x xs ih =>
    by_cases hx : x = 0
    · subst hx
      simp [cstr, List.takeWhile_cons]
    · have hxs : 0 ∈ xs := by
        rcases List.mem_cons.mp h with h0 | h0
        · exact absurd h0.symm hx
        · exact h0
      have hxb : (x != 0) = true := by simp [hx]
      simp only [cstr, List.cons_append, List.takeWhile_cons, hxb, if_true]
      rw [← cstr, ← cstr, ih hxs]

theorem cstr_of_printable (v rest : List Nat)
    (hall : ∀ x ∈ v, isPrintByte x = true) :
    cstr (v ++ 0 :: rest) = v := by
  rw [cstr, List.takeWhile_append_of_pos]
  · simp [List.takeWhile_cons]
  · intro a ha
    have := hall a ha
    simp only [isPrintByte, Bool.and_eq_true, decide_eq_true_eq] at this
    simp only [bne_iff_ne, ne_eq]
    omega

theorem get_eq_cstr (s : DeviceInfoString) (h : sentinelByte ∉ s.data) :
    s.Get = cstr s.data := by
  rw [DeviceInfoString.Get, cstr]
  obtain ⟨d⟩ := s
  simp only at h ⊢
  induction d with
  | nil => rfl
  | cons x xs ih =>
    have hx : x ≠ sentinelByte := fun he => h (he ▸ List.mem_cons_self x xs)
    have hxs : sentinelByte ∉ xs := fun he => h (List.mem_cons_of_mem x he)
    simp only [List.takeWhile_cons]
    have hxb : (x == sentinelByte) = false := by simp [hx]
    have hcond : (!(x == 0 || x == sentinelByte)) = (x != 0) := by
      rw [hxb]
      simp [bne]
    rw [hcond]
    by_cases h0 : (x != 0) = true
    · rw [h0]
      simp only [if_true]
      rw [ih hxs]
    · simp only [Bool.not_eq_true] at h0
      rw [h0]
      simp

/-! ### Branch-evaluation lemmas for `HandleSerialMessage` -/

theorem handle_field_assign (st : SysState) (f : FieldKey) (v : List Nat) :
    HandleSerialMessage st (keyBytes f ++ 61 :: v) =
      if st.writeLock then (st, [])
      else if v.any (fun b => !(isPrintByte b)) then (st, [])
      else (StoreDeviceInfo { st with data := assignBlock st.data f v }, []) := by
  have hne : ¬(keyBytes f ++ 61 :: v = []) := by
    intro hcon
    exact absurd (List.append_eq_nil.mp hcon).2 (by simp)
  rw [HandleSerialMessage, if_neg hne,
    splitPunct_append _ _ _ (keyBytes_no_punct f) (by decide)]
  simp only [lookup_keyBytes, beq_self_eq_true, if_true]

theorem handle_field_query (st : SysState) (f : FieldKey) :
    HandleSerialMessage st (keyBytes f ++ [63]) =
      (st, [cstr (st.data.serialize.drop (fieldOffset f))]) := by
  have hne : ¬(keyBytes f ++ [63] = []) := by
    intro hcon
    exact absurd (List.append_eq_nil.mp hcon).2 (by simp)
  rw [HandleSerialMessage, if_neg hne,
    splitPunct_append _ _ _ (keyBytes_no_punct f) (by decide)]
  simp only [lookup_keyBytes]
  rfl

theorem handle_check_query (st : SysState) :
    HandleSerialMessage st (strBytes "CHECK" ++ [63]) =
      (st, [if st.data.ComputeChecksum == st.data.checksum then strBytes "OK"
            else strBytes "ERR"]) := by
  have hne : ¬(strBytes "CHECK" ++ [63] = []) := by
    intro hcon
    exact absurd (List.append_eq_nil.mp hcon).2 (by simp)
  rw [HandleSerialMessage, if_neg hne,
    splitPunct_append _ _ _ (by decide) (by decide)]
  have hlk : LookupField (strBytes "CHECK") = none := by decide
  have hs : ¬(strBytes "CHECK" = strBytes "SERIAL") := by decide
  have hp : ((63 : Nat) == 61) = false := by decide
  simp only [hp, Bool.false_eq_true, if_false, hlk, if_neg hs, if_pos rfl,
    eq_self_iff_true, if_true]
  by_cases hc : (st.data.ComputeChecksum == st.data.checksum) = true
  · rw [if_pos hc, if_pos hc]
  · rw [if_neg hc, if_neg hc]

theorem handle_clear (st : SysState) :
    HandleSerialMessage st (strBytes "CLEAR") =
      if st.writeLock then (st, [])
      else (StoreDeviceInfo { st with data := emptyBlock }, []) := by
  have hne : ¬(strBytes "CLEAR" = []) := by decide
  have hsp : splitPunct (strBytes "CLEAR") = none := by decide
  rw [HandleSerialMessage, if_neg hne, hsp]
  simp only [if_pos rfl, eq_self_iff_true, if_true]

/-! ### Helper lemmas about `Set` and the invariant -/

theorem set_data_length (v : List Nat) :
    (DeviceInfoString.Set v).data.length = 64 := by
  rw [DeviceInfoString.Set]
  simp only [List.length_append, List.length_take, List.length_replicate]
  omega

theorem set_data_of_short (v : List Nat) (hv : v.length ≤ 63) :
    (DeviceInfoString.Set v).data = v ++ 0 :: List.replicate (63 - v.length) 0 := by
  rw [DeviceInfoString.Set]
  simp only
  rw [List.take_of_length_le hv]
  have hmin : min v.length 63 = v.length := by omega
  have h64 : 64 - min v.length 63 = (63 - v.length) + 1 := by omega
  rw [h64, List.replicate_succ]

/-- Field invariant: 64 bytes, at least one NUL, no `0xFF`. -/
def fieldInv (s : DeviceInfoString) : Prop :=
  s.data.length = 64 ∧ 0 ∈ s.data ∧ sentinelByte ∉ s.data

/-- Record invariant: every field satisfies `fieldInv`. -/
def blockInv (b : DeviceInfoBlock) : Prop :=
  ∀ k : FieldKey, fieldInv (getField b k)

theorem fieldInv_zero : fieldInv ⟨List.replicate 64 0⟩ :=
  ⟨by decide, by decide, by decide⟩

theorem blockInv_empty : blockInv emptyBlock := by
  intro k
  cases k <;> exact fieldInv_zero

theorem fieldInv_set (v : List Nat) (hv : ∀ x ∈ v, isPrintByte x = true) :
    fieldInv (DeviceInfoString.Set v) := by
  refine ⟨set_data_length v, ?_, ?_⟩
  · rw [DeviceInfoString.Set]
    simp only
    refine List.mem_append.mpr (Or.inr (List.mem_replicate.mpr ⟨?_, rfl⟩))
    omega
  · rw [DeviceInfoString.Set]
    simp only
    intro hmem
    rcases List.mem_append.mp hmem with h | h
    · have hx := hv _ (List.take_subset _ _ h)
      simp [isPrintByte, sentinelByte] at hx
    · have := (List.mem_replicate.mp h).2
      simp [sentinelByte] at this

theorem blockInv_assign (b : DeviceInfoBlock) (f : FieldKey) (v : List Nat)
    (hinv : blockInv b) (hv : ∀ x ∈ v, isPrintByte x = true) :
    blockInv (assignBlock b f v) := by
  intro k
  rw [getField_assignBlock]
  split
  · exact fieldInv_set v hv
  · exact hinv k

theorem query_emits_get (b : DeviceInfoBlock) (f : FieldKey)
    (hl : ∀ k : FieldKey, (getField b k).data.length = 64)
    (hf : fieldInv (getField b f)) :
    cstr (b.serialize.drop (fieldOffset f)) = (getField b f).Get := by
  rw [serialize_drop b hl f, cstr_append_of_zero _ _ hf.2.1,
    get_eq_cstr _ hf.2.2]

theorem emptyBlock_len : ∀ k : FieldKey, (getField emptyBlock k).data.length = 64 := by
  intro k
  cases k <;> decide

/-- C4: for an assignment `HEADER=VALUE` whose header names an identity
field: with write permission denied the command is silently ignored and
nothing changes; with any non-printable byte in VALUE the assignment is
rejected entirely with no mutation; otherwise the field is set, the
record checksum recomputed, the whole record persisted, and a
subsequent `HEADER?` query emits the assigned text. -/
theorem assign_command_spec (st : SysState) (f : FieldKey) (v : List Nat)
    (hwf : ∀ k : FieldKey, (getField st.data k).data.length = 64) :
    (st.writeLock = true →
      HandleSerialMessage st (keyBytes f ++ 61 :: v) = (st, [])) ∧
    ((∃ x ∈ v, isPrintByte x = false) →
      HandleSerialMessage st (keyBytes f ++ 61 :: v) = (st, [])) ∧
    (st.writeLock = false → (∀ x ∈ v, isPrintByte x = true) →
      HandleSerialMessage st (keyBytes f ++ 61 :: v) =
        ({ st with data := assignBlock st.data f v,
                   persisted := assignBlock st.data f v }, []) ∧
      getField (assignBlock st.data f v) f = DeviceInfoString.Set v ∧
      (assignBlock st.data f v).checksum =
        (setField st.data f (DeviceInfoString.Set v)).ComputeChecksum ∧
      (v.length ≤ 63 →
        HandleSerialMessage
          { st with data := assignBlock st.data f v,
                    persisted := assignBlock st.data f v }
          (keyBytes f ++ [63]) =
          ({ st with data := assignBlock st.data f v,
                     persisted := assignBlock st.data f v }, [v]))) := by
  refine ⟨?_, ?_, ?_⟩
  · intro hl
    rw [handle_field_assign, if_pos hl]
  · intro hex
    rw [handle_field_assign]
    have hany : v.any (fun b => !(isPrintByte b)) = true := by
      simp only [List.any_eq_true, Bool.not_eq_eq_eq_not, Bool.not_true]
      exact hex
    rw [hany]
    split <;> rfl
  · intro hl hall
    have hany : v.any (fun b => !(isPrintByte b)) = false := by
      simp only [List.any_eq_false, Bool.not_eq_eq_eq_not, Bool.not_true]
      intro x hx
      simp [hall x hx]
    refine ⟨?_, ?_, ?_, ?_⟩
    · rw [handle_field_assign, hl, hany]
      rfl
    · rw [getField_assignBlock, if_pos rfl]
    · rfl
    · intro hlen
      rw [handle_field_query]
      have hl' : ∀ k : FieldKey,
          (getField (assignBlock st.data f v) k).data.length = 64 := by
        intro k
        rw [getField_assignBlock]
        split
        · exact set_data_length v
        · exact hwf k
      rw [serialize_drop _ hl' f]
      rw [getField_assignBlock, if_pos rfl, set_data_of_short v hlen]
      rw [List.append_assoc, List.cons_append]
      rw [cstr_of_printable v _ hall]

/-- Witness for C4: `MFG=Acme` — ignored under write lock, rejected
with a newline byte in the value, and otherwise stored so that `MFG?`
emits `Acme`. -/
theorem assign_command_spec_witness :
    HandleSerialMessage
      ⟨emptyBlock, emptyBlock, true, [], ⟨List.replicate 16 0, 0⟩, 0, 0⟩
      (keyBytes .mfg ++ 61 :: strBytes "Acme") =
      (⟨emptyBlock, emptyBlock, true, [], ⟨List.replicate 16 0, 0⟩, 0, 0⟩, []) ∧
    HandleSerialMessage
      ⟨emptyBlock, emptyBlock, false, [], ⟨List.replicate 16 0, 0⟩, 0, 0⟩
      (keyBytes .mfg ++ 61 :: [65, 10]) =
      (⟨emptyBlock, emptyBlock, false, [], ⟨List.replicate 16 0, 0⟩, 0, 0⟩, []) ∧
    (HandleSerialMessage
      (HandleSerialMessage
        ⟨emptyBlock, emptyBlock, false, [], ⟨List.replicate 16 0, 0⟩, 0, 0⟩
        (keyBytes .mfg ++ 61 :: strBytes "Acme")).1
      (keyBytes .mfg ++ [63])).2 = [strBytes "Acme"] := by
  refine ⟨?_, ?_, ?_⟩
  · exact (assign_command_spec _ .mfg (strBytes "Acme") emptyBlock_len).1 rfl
  · exact (assign_command_spec _ .mfg [65, 10] emptyBlock_len).2.1
      ⟨10, by decide, by decide⟩
  · have h := (assign_command_spec
      ⟨emptyBlock, emptyBlock, false, [], ⟨List.replicate 16 0, 0⟩, 0, 0⟩
      .mfg (strBytes "Acme") emptyBlock_len).2.2 rfl (by decide)
    rw [h.1, h.2.2.2 (by decide)]

/-! ### Checksum characterization and the CHECK? query (C7) -/

theorem foldl_mod_sum (l : List Nat) :
    ∀ a : Nat, a < 256 → (∀ x ∈ l, x < 256) →
    l.foldl (fun acc b => (acc + b % 256) % 256) a = (a + l.sum) % 256 := by
  induction l with
  | nil =>
    intro a ha _
    simp only [List.foldl_nil, List.sum_nil]
    omega
  | cons x xs ih =>
    intro a ha hb
    have hx : x < 256 := hb x (List.mem_cons_self x xs)
    simp only [List.foldl_cons, List.sum_cons]
    rw [ih _ (Nat.mod_lt _ (by omega)) (fun y hy => hb y (List.mem_cons_of_mem x hy))]
    omega

theorem string_sum_eq (s : DeviceInfoString) (h : ∀ x ∈ s.data, x < 256) :
    s.Sum = s.data.sum % 256 := by
  rw [DeviceInfoString.Sum, foldl_mod_sum s.data 0 (by omega) h, Nat.zero_add]

theorem computeChecksum_eq_fieldBytes (b : DeviceInfoBlock)
    (h : ∀ k : FieldKey, ∀ x ∈ (getField b k).data, x < 256) :
    b.ComputeChecksum = b.fieldBytes.sum % 256 := by
  have h1 := h .mfg
  have h2 := h .name
  have h3 := h .ver
  have h4 := h .date
  have h5 := h .part
  have h6 := h .mfgserial
  have h7 := h .user1
  have h8 := h .user2
  have h9 := h .user3
  have h10 := h .user4
  simp only [getField] at h1 h2 h3 h4 h5 h6 h7 h8 h9 h10
  rw [DeviceInfoBlock.ComputeChecksum, DeviceInfoBlock.fieldBytes]
  rw [string_sum_eq _ h1, string_sum_eq _ h2, string_sum_eq _ h3,
    string_sum_eq _ h4, string_sum_eq _ h5, string_sum_eq _ h6,
    string_sum_eq _ h7, string_sum_eq _ h8, string_sum_eq _ h9,
    string_sum_eq _ h10]
  simp only [List.sum_append]
  omega

/-- C7: the `CHECK?` query emits `OK` if `ComputeChecksum()` — the
8-bit wraparound sum over all bytes of the ten fields, excluding the
checksum byte itself (`fieldBytes` is the serialized image minus the
trailing checksum byte) — equals the stored checksum byte, and `ERR`
otherwise; it emits `OK` immediately after any accepted field
assignment, and `ERR` whenever the checksum byte is corrupted to any
other value without updating the fields. -/
theorem check_command_spec (st : SysState) :
    (HandleSerialMessage st (strBytes "CHECK" ++ [63]) =
      (st, [if st.data.ComputeChecksum == st.data.checksum then strBytes "OK"
            else strBytes "ERR"])) ∧
    ((∀ k : FieldKey, ∀ x ∈ (getField st.data k).data, x < 256) →
      st.data.ComputeChecksum = st.data.fieldBytes.sum % 256 ∧
      st.data.serialize = st.data.fieldBytes ++ [st.data.checksum]) ∧
    (∀ (f : FieldKey) (v : List Nat), st.writeLock = false →
      (∀ x ∈ v, isPrintByte x = true) →
      HandleSerialMessage (HandleSerialMessage st (keyBytes f ++ 61 :: v)).1
        (strBytes "CHECK" ++ [63]) =
        ((HandleSerialMessage st (keyBytes f ++ 61 :: v)).1, [strBytes "OK"])) ∧
    (∀ c : Nat, c ≠ st.data.ComputeChecksum →
      HandleSerialMessage { st with data := { st.data with checksum := c } }
        (strBytes "CHECK" ++ [63]) =
        ({ st with data := { st.data with checksum := c } }, [strBytes "ERR"])) := by
  refine ⟨handle_check_query st, ?_, ?_, ?_⟩
  · intro h
    exact ⟨computeChecksum_eq_fieldBytes st.data h, rfl⟩
  · intro f v hl hall
    have hany : v.any (fun b => !(isPrintByte b)) = false := by
      simp only [List.any_eq_false, Bool.not_eq_eq_eq_not, Bool.not_true]
      intro x hx
      simp [hall x hx]
    have h1 : HandleSerialMessage st (keyBytes f ++ 61 :: v) =
        ({ st with data := assignBlock st.data f v,
                   persisted := assignBlock st.data f v }, []) := by
      rw [handle_field_assign, hl, hany]
      rfl
    rw [h1]
    rw [handle_check_query]
    have hck : (assignBlock st.data f v).checksum =
        (setField st.data f (DeviceInfoString.Set v)).ComputeChecksum := rfl
    have hcc : (assignBlock st.data f v).ComputeChecksum =
        (setField st.data f (DeviceInfoString.Set v)).ComputeChecksum := rfl
    have hok : ((assignBlock st.data f v).ComputeChecksum ==
        (assignBlock st.data f v).checksum) = true := by
      rw [hck, hcc]
      exact beq_self_eq_true _
    simp only [hok, if_true]
  · intro c hc
    rw [handle_check_query]
    have herr : (DeviceInfoBlock.ComputeChecksum { st.data with checksum := c } ==
        ({ st.data with checksum := c }).checksum) = false := by
      rw [computeChecksum_checksum_update]
      exact beq_eq_false_iff_ne.mpr (fun he => hc (he.symm))
    simp only [herr, Bool.false_eq_true, if_false]

/-- Witness for C7: on an all-zero record `CHECK?` emits `OK`; after
corrupting the checksum byte to 7 it emits `ERR`; after assigning
`MFG=Acme` it emits `OK` again. -/
theorem check_command_spec_witness :
    HandleSerialMessage
      ⟨emptyBlock, emptyBlock, false, [], ⟨List.replicate 16 0, 0⟩, 0, 0⟩
      (strBytes "CHECK" ++ [63]) =
      (⟨emptyBlock, emptyBlock, false, [], ⟨List.replicate 16 0, 0⟩, 0, 0⟩,
        [strBytes "OK"]) ∧
    (HandleSerialMessage
      ⟨{ emptyBlock with checksum := 7 }, emptyBlock, false, [],
        ⟨List.replicate 16 0, 0⟩, 0, 0⟩
      (strBytes "CHECK" ++ [63])).2 = [strBytes "ERR"] ∧
    (HandleSerialMessage
      (HandleSerialMessage
        ⟨emptyBlock, emptyBlock, false, [], ⟨List.replicate 16 0, 0⟩, 0, 0⟩
        (keyBytes .mfg ++ 61 :: strBytes "Acme")).1
      (strBytes "CHECK" ++ [63])).2 = [strBytes "OK"] := by
  refine ⟨?_, ?_, ?_⟩
  · have h := (check_command_spec
      ⟨emptyBlock, emptyBlock, false, [], ⟨List.replicate 16 0, 0⟩, 0, 0⟩).1
    rw [h]
    norm_num
    decide
  · have h := (check_command_spec
      ⟨emptyBlock, emptyBlock, false, [], ⟨List.replicate 16 0, 0⟩, 0, 0⟩).2.2.2
      7 (by decide)
    rw [h]
  · have h := (check_command_spec
      ⟨emptyBlock, emptyBlock, false, [], ⟨List.replicate 16 0, 0⟩, 0, 0⟩).2.2.1
      .mfg (strBytes "Acme") rfl (by decide)
    rw [h]

/-- C9: the bare `CLEAR` command with write permission resets the whole
identity record (all ten fields and the checksum byte) to the all-zero
state and persists it; the computed checksum of the all-zero record is
zero and equals the stored byte, so a subsequent `CHECK?` emits `OK`;
with writing denied `CLEAR` changes nothing. -/
theorem clear_command_spec (st : SysState) :
    (st.writeLock = false →
      HandleSerialMessage st (strBytes "CLEAR") =
        ({ st with data := emptyBlock, persisted := emptyBlock }, []) ∧
      (∀ k : FieldKey, getField emptyBlock k = ⟨List.replicate 64 0⟩) ∧
      emptyBlock.checksum = 0 ∧
      emptyBlock.ComputeChecksum = 0 ∧
      HandleSerialMessage { st with data := emptyBlock, persisted := emptyBlock }
        (strBytes "CHECK" ++ [63]) =
        ({ st with data := emptyBlock, persisted := emptyBlock }, [strBytes "OK"])) ∧
    (st.writeLock = true → HandleSerialMessage st (strBytes "CLEAR") = (st, [])) := by
  constructor
  · intro hl
    refine ⟨?_, ?_, rfl, by decide, ?_⟩
    · rw [handle_clear, hl]
      rfl
    · intro k
      cases k <;> rfl
    · rw [handle_check_query]
      have hok : (DeviceInfoBlock.ComputeChecksum emptyBlock ==
          emptyBlock.checksum) = true := by decide
      simp only [hok, if_true]
  · intro hl
    rw [handle_clear, if_pos hl]

/-- Witness for C9: from a state holding a nonzero record under no
write lock, `CLEAR` zeroes and persists the record and `CHECK?` then
emits `OK`; under write lock the same state is unchanged. -/
theorem clear_command_spec_witness :
    HandleSerialMessage
      ⟨{ emptyBlock with checksum := 9 }, emptyBlock, false, [],
        ⟨List.replicate 16 0, 0⟩, 0, 0⟩ (strBytes "CLEAR") =
      (⟨emptyBlock, emptyBlock, false, [], ⟨List.replicate 16 0, 0⟩, 0, 0⟩, []) ∧
    (HandleSerialMessage
      ⟨emptyBlock, emptyBlock, false, [], ⟨List.replicate 16 0, 0⟩, 0, 0⟩
      (strBytes "CHECK" ++ [63])).2 = [strBytes "OK"] ∧
    HandleSerialMessage
      ⟨{ emptyBlock with checksum := 9 }, emptyBlock, true, [],
        ⟨List.replicate 16 0, 0⟩, 0, 0⟩ (strBytes "CLEAR") =
      (⟨{ emptyBlock with checksum := 9 }, emptyBlock, true, [],
        ⟨List.replicate 16 0, 0⟩, 0, 0⟩, []) := by
  refine ⟨?_, ?_, ?_⟩
  · exact ((clear_command_spec _).1 rfl).1
  · rw [((clear_command_spec
      ⟨emptyBlock, emptyBlock, false, [], ⟨List.replicate 16 0, 0⟩, 0, 0⟩).1
      rfl).2.2.2.2]
  · exact (clear_command_spec _).2 rfl

/-! ### The field invariant across commands (C10) -/

/-- C10 counterexample: the claim says start-up validation leaves every
field with at least one NUL byte; but a field of 64 `'A'` bytes (no
`0xFF`, no NUL) passes `Validate` untouched, and the raw-pointer query
emission then runs past the field into the next one, differing from
`Get()`'s view. -/
theorem field_invariant_counterexample :
    (DeviceInfoBlock.Validate
      { emptyBlock with mfg := ⟨List.replicate 64 65⟩,
                        name := ⟨List.replicate 64 66⟩ }).2 = true ∧
    0 ∉ (getField (DeviceInfoBlock.Validate
      { emptyBlock with mfg := ⟨List.replicate 64 65⟩,
                        name := ⟨List.replicate 64 66⟩ }).1 .mfg).data ∧
    cstr ((DeviceInfoBlock.serialize
      { emptyBlock with mfg := ⟨List.replicate 64 65⟩,
                        name := ⟨List.replicate 64 66⟩ }).drop (fieldOffset .mfg)) ≠
      (getField { emptyBlock with mfg := ⟨List.replicate 64 65⟩,
                                  name := ⟨List.replicate 64 66⟩ } .mfg).Get := by
  refine ⟨by decide, by decide, ?_⟩
  decide

/-- C10 (amended): provided every field of the loaded record contains a
NUL or a `0xFF` byte (true of blank memory and of anything this
firmware wrote), start-up validation establishes that every field holds
64 bytes with at least one NUL and no `0xFF`; every command preserves
this invariant; and under it a field query emits exactly `Get()`'s
view — the printf stops at the in-field NUL and never reads past the
field. -/
theorem field_invariant_spec :
    (∀ b : DeviceInfoBlock,
      (∀ k : FieldKey, (getField b k).data.length = 64 ∧
        (0 ∈ (getField b k).data ∨ sentinelByte ∈ (getField b k).data)) →
      blockInv (b.Validate).1) ∧
    (∀ (st : SysState) (msg : List Nat), blockInv st.data →
      blockInv (HandleSerialMessage st msg).1.data) ∧
    (∀ (st : SysState) (f : FieldKey), blockInv st.data →
      HandleSerialMessage st (keyBytes f ++ [63]) =
        (st, [(getField st.data f).Get])) := by
  refine ⟨?_, ?_, ?_⟩
  · intro b h k
    rw [block_validate_field, string_validate_fst]
    split
    · exact fieldInv_zero
    · rename_i hns
      obtain ⟨hlen, hz | hs⟩ := h k
      · exact ⟨hlen, hz, hns⟩
      · exact absurd hs hns
  · intro st msg hinv
    rw [HandleSerialMessage]
    by_cases hm : msg = []
    · rw [if_pos hm]
      exact hinv
    · rw [if_neg hm]
      cases hsp : splitPunct msg with
      | none =>
        simp only
        by_cases hc : msg = strBytes "CLEAR"
        · rw [if_pos hc]
          by_cases hl : st.writeLock
          · rw [if_pos hl]
            exact hinv
          · rw [if_neg hl]
            exact blockInv_empty
        · rw [if_neg hc]
          by_cases hr : msg = strBytes "RESETCOUNT"
          · rw [if_pos hr]
            exact hinv
          · rw [if_neg hr]
            exact hinv
      | some x =>
        obtain ⟨header, p, rest⟩ := x
        simp only
        by_cases hp : (p == 61) = true
        · rw [if_pos hp]
          by_cases hl : st.writeLock
          · rw [if_pos hl]
            exact hinv
          · rw [if_neg hl]
            cases hlf : LookupField header with
            | none => exact hinv
            | some f =>
              simp only
              by_cases hbad : rest.any (fun b => !(isPrintByte b)) = true
              · rw [if_pos hbad]
                exact hinv
              · rw [if_neg hbad]
                apply blockInv_assign _ _ _ hinv
                intro x hx
                rw [Bool.not_eq_true] at hbad
                simp only [List.any_eq_false, Bool.not_eq_eq_eq_not,
                  Bool.not_true] at hbad
                have hbx := hbad x hx
                revert hbx
                cases isPrintByte x <;> simp
        · rw [if_neg hp]
          cases hlf : LookupField header with
          | some f => exact hinv
          | none =>
            simp only
            split_ifs <;> exact hinv
  · intro st f hinv
    rw [handle_field_query,
      query_emits_get st.data f (fun k => (hinv k).1) (hinv f)]

/-- Witness for C10 (amended): an all-`0xFF` `MFG` field is brought
into the invariant by validation; an `MFG=Hi` command preserves the
invariant from the all-zero state; and a query on the all-zero state
emits exactly `Get()`'s (empty) view. -/
theorem field_invariant_spec_witness :
    blockInv (DeviceInfoBlock.Validate
      { emptyBlock with mfg := ⟨List.replicate 64 sentinelByte⟩ }).1 ∧
    blockInv (HandleSerialMessage
      ⟨emptyBlock, emptyBlock, false, [], ⟨List.replicate 16 0, 0⟩, 0, 0⟩
      (keyBytes .mfg ++ 61 :: strBytes "Hi")).1.data ∧
    HandleSerialMessage
      ⟨emptyBlock, emptyBlock, false, [], ⟨List.replicate 16 0, 0⟩, 0, 0⟩
      (keyBytes .mfg ++ [63]) =
      (⟨emptyBlock, emptyBlock, false, [], ⟨List.replicate 16 0, 0⟩, 0, 0⟩,
        [(getField emptyBlock .mfg).Get]) := by
  refine ⟨?_, ?_, ?_⟩
  · apply field_invariant_spec.1
    intro k
    cases k <;> refine ⟨by decide, ?_⟩
    · exact Or.inr (by decide)
    all_goals exact Or.inl (by decide)
  · exact field_invariant_spec.2.1 _ _ blockInv_empty
  · exact field_invariant_spec.2.2 _ .mfg blockInv_empty

end PicoIdent
